import Mathlib

/-!
Shallow embedding of `src/recipe.py` (behixs/Project_recipe_finder).

Modelling conventions:
* Python floats and JSON numbers are modelled as rationals (`ℚ`); the
  party-size input (`st.number_input`, min 1) is an integer (`ℤ`).
* Python strings are modelled by Lean `String` except where character-level
  reasoning is needed (`get_recipes`'s query building), where a string is a
  `List Char`.
* A Python `dict` with string keys is modelled by an insertion-ordered
  association list `List (String × ℚ)`; `dictAssign` is the semantics of
  `data[name] = amount` (overwrite in place if the key exists, else append),
  matching Python 3.7+ ordered dicts.
* Subscript access `ing['field']` on a possibly-missing field raises
  `KeyError`; this is modelled by `Option`-valued fields and an
  `Option`-valued aggregation (`none` = the Python call raises).
-/

namespace RecipeFinder

/-- One ingredient record as consumed by `create_ingredients_df`
(recipe.py line 46-48): the fields `originalName` and `amount` that the
code reads by subscript. -/
structure Ingredient where
  originalName : String
  amount : ℚ
deriving DecidableEq, Repr

/-- The part of a Spoonacular recipe object that `create_ingredients_df`
reads: the `usedIngredients` and `missedIngredients` arrays
(recipe.py line 46). -/
structure Recipe where
  usedIngredients : List Ingredient
  missedIngredients : List Ingredient
deriving DecidableEq, Repr

/-- Python `data[name] = amount` on an insertion-ordered dict: if `k` is
already a key, overwrite its value in place (keeping its position), else
append the pair at the end. -/
def dictAssign (data : List (String × ℚ)) (k : String) (v : ℚ) :
    List (String × ℚ) :=
  if k ∈ data.map Prod.fst then
    data.map (fun p => if p.1 = k then (k, v) else p)
  else data ++ [(k, v)]

/-- One iteration of the loop body of `create_ingredients_df`
(recipe.py lines 46-49): `data[ing['originalName']] = ing['amount'] * people_count`. -/
def ingStep (people_count : ℤ) (data : List (String × ℚ))
    (ing : Ingredient) : List (String × ℚ) :=
  dictAssign data ing.originalName (ing.amount * (people_count : ℚ))

/-- `create_ingredients_df` (recipe.py lines 43-51): iterate over
`recipe['usedIngredients'] + recipe['missedIngredients']`, assigning
`data[name] = amount * people_count` into a dict, then list the
`(Ingredient, Amount)` pairs in dict (insertion) order. The resulting
DataFrame is represented by that list of rows. -/
def create_ingredients_df (people_count : ℤ) (recipe : Recipe) :
    List (String × ℚ) :=
  List.foldl (ingStep people_count) []
    (recipe.usedIngredients ++ recipe.missedIngredients)

/-- Dict lookup on the row list: value of the first (unique) row whose
key is `k`. -/
def lookupAmount : List (String × ℚ) → String → Option ℚ
  | [], _ => none
  | p :: d, k => if p.1 = k then some p.2 else lookupAmount d k

/-- First-seen (insertion-order) deduplication of a list of names, with an
accumulator of names already seen: the order in which a Python dict built
by repeated assignment lists its keys. -/
def firstSeenAux (seen : List String) : List String → List String
  | [] => []
  | x :: xs =>
    if x ∈ seen then firstSeenAux seen xs
    else x :: firstSeenAux (seen ++ [x]) xs

/-- First-seen (insertion-order) deduplication of a list of names. -/
def firstSeen (l : List String) : List String :=
  firstSeenAux [] l

/-- The scenario of spec section 8: used flour 1.0, missing flour 0.5. -/
def flourRecipe : Recipe :=
  { usedIngredients := [{ originalName := "flour", amount := 1 }],
    missedIngredients := [{ originalName := "flour", amount := 1/2 }] }

/-! ### Lemmas about `dictAssign` -/

theorem keys_dictAssign (d : List (String × ℚ)) (k : String) (v : ℚ) :
    (dictAssign d k v).map Prod.fst =
      if k ∈ d.map Prod.fst then d.map Prod.fst else d.map Prod.fst ++ [k] := by
  unfold dictAssign
  split
  · rw [List.map_map]
    apply List.map_congr_left
    intro p _
    by_cases h : p.1 = k <;> simp [h]
  · simp

theorem nodup_keys_dictAssign (d : List (String × ℚ)) (k : String) (v : ℚ)
    (h : (d.map Prod.fst).Nodup) : ((dictAssign d k v).map Prod.fst).Nodup := by
  rw [keys_dictAssign]
  split
  · exact h
  · next hk => simp [List.nodup_append, h, hk]

theorem lookupAmount_overwrite_self (d : List (String × ℚ)) (k : String) (v : ℚ)
    (h : k ∈ d.map Prod.fst) :
    lookupAmount (d.map (fun p => if p.1 = k then (k, v) else p)) k = some v := by
  induction d with
  | nil => simp at h
  | cons p d ih =>
    by_cases hp : p.1 = k
    · simp [lookupAmount, hp]
    · have h' : k ∈ d.map Prod.fst := by
        rw [List.map_cons] at h
        rcases List.mem_cons.mp h with h1 | h2
        · exact absurd h1.symm hp
        · exact h2
      simp [lookupAmount, hp, ih h']

theorem lookupAmount_overwrite_ne (d : List (String × ℚ)) (k k' : String) (v : ℚ)
    (hne : k' ≠ k) :
    lookupAmount (d.map (fun p => if p.1 = k then (k, v) else p)) k' =
      lookupAmount d k' := by
  induction d with
  | nil => rfl
  | cons p d ih =>
    by_cases hp : p.1 = k
    · simp [lookupAmount, hp, Ne.symm hne, ih]
    · by_cases hp' : p.1 = k'
      · simp [lookupAmount, hp, hp', hne]
      · simp [lookupAmount, hp, hp', ih]

theorem lookupAmount_append_single_self (d : List (String × ℚ)) (k : String) (v : ℚ)
    (h : k ∉ d.map Prod.fst) :
    lookupAmount (d ++ [(k, v)]) k = some v := by
  induction d with
  | nil => simp [lookupAmount]
  | cons p d ih =>
    have hp : p.1 ≠ k := by
      intro e
      exact h (by simp [← e])
    exact by simp [lookupAmount, hp, ih (fun hm => h (by simp [hm]))]

theorem lookupAmount_append_single_ne (d : List (String × ℚ)) (k k' : String) (v : ℚ)
    (hne : k' ≠ k) :
    lookupAmount (d ++ [(k, v)]) k' = lookupAmount d k' := by
  induction d with
  | nil => simp [lookupAmount, Ne.symm hne]
  | cons p d ih =>
    by_cases hp : p.1 = k' <;> simp [lookupAmount, hp, ih]

theorem lookupAmount_dictAssign_self (d : List (String × ℚ)) (k : String) (v : ℚ) :
    lookupAmount (dictAssign d k v) k = some v := by
  unfold dictAssign
  split
  · exact lookupAmount_overwrite_self _ _ _ ‹_›
  · exact lookupAmount_append_single_self _ _ _ ‹_›

theorem lookupAmount_dictAssign_ne (d : List (String × ℚ)) (k k' : String) (v : ℚ)
    (hne : k' ≠ k) :
    lookupAmount (dictAssign d k v) k' = lookupAmount d k' := by
  unfold dictAssign
  split
  · exact lookupAmount_overwrite_ne _ _ _ _ hne
  · exact lookupAmount_append_single_ne _ _ _ _ hne

/-! ### Lemmas about the aggregation loop -/

theorem keys_foldl_ingStep (k : ℤ) (l : List Ingredient)
    (data : List (String × ℚ)) :
    (List.foldl (ingStep k) data l).map Prod.fst =
      data.map Prod.fst ++
        firstSeenAux (data.map Prod.fst) (l.map (fun i => i.originalName)) := by
  induction l generalizing data with
  | nil => simp [firstSeenAux]
  | cons i l ih =>
    rw [List.foldl_cons, List.map_cons]
    by_cases h : i.originalName ∈ data.map Prod.fst
    · have hk : (ingStep k data i).map Prod.fst = data.map Prod.fst := by
        simp [ingStep, keys_dictAssign, h]
      rw [ih, hk, firstSeenAux, if_pos h]
    · have hk : (ingStep k data i).map Prod.fst =
          data.map Prod.fst ++ [i.originalName] := by
        simp [ingStep, keys_dictAssign, h]
      rw [ih, hk, firstSeenAux, if_neg h, List.append_assoc,
        List.singleton_append]

theorem nodup_keys_foldl_ingStep (k : ℤ) (l : List Ingredient)
    (data : List (String × ℚ)) (h : (data.map Prod.fst).Nodup) :
    ((List.foldl (ingStep k) data l).map Prod.fst).Nodup := by
  induction l generalizing data with
  | nil => exact h
  | cons i l ih =>
    rw [List.foldl_cons]
    exact ih _ (nodup_keys_dictAssign _ _ _ h)

theorem mem_firstSeenAux (x : String) (l : List String) :
    ∀ seen : List String, x ∈ firstSeenAux seen l ↔ (x ∈ l ∧ x ∉ seen) := by
  induction l with
  | nil => intro seen; simp [firstSeenAux]
  | cons y l ih =>
    intro seen
    by_cases hy : y ∈ seen
    · rw [firstSeenAux, if_pos hy, ih, List.mem_cons]
      constructor
      · rintro ⟨hl, hs⟩
        exact ⟨Or.inr hl, hs⟩
      · rintro ⟨hor, hs⟩
        rcases hor with e | hl
        · exact absurd (e ▸ hy) hs
        · exact ⟨hl, hs⟩
    · rw [firstSeenAux, if_neg hy, List.mem_cons, ih, List.mem_cons]
      constructor
      · rintro (e | ⟨hl, hs⟩)
        · exact ⟨Or.inl e, fun hx => hy (e ▸ hx)⟩
        · refine ⟨Or.inr hl, fun hx => hs ?_⟩
          simp [hx]
      · rintro ⟨hor, hs⟩
        rcases hor with e | hl
        · exact Or.inl e
        · by_cases hxy : x = y
          · exact Or.inl hxy
          · refine Or.inr ⟨hl, fun hx => ?_⟩
            rcases List.mem_append.mp hx with h1 | h2
            · exact hs h1
            · exact hxy (by simpa using h2)

theorem mem_firstSeen (x : String) (l : List String) :
    x ∈ firstSeen l ↔ x ∈ l := by
  rw [firstSeen, mem_firstSeenAux]
  simp

theorem lookupAmount_foldl_ingStep (k : ℤ) (l : List Ingredient)
    (data : List (String × ℚ)) (name : String) :
    lookupAmount (List.foldl (ingStep k) data l) name =
      ((l.reverse.find? (fun i => i.originalName == name)).map
        (fun i => i.amount * (k : ℚ))).or (lookupAmount data name) := by
  induction l generalizing data with
  | nil => simp
  | cons i l ih =>
    rw [List.foldl_cons, ih, List.reverse_cons, List.find?_append]
    cases hf : l.reverse.find? (fun i => i.originalName == name) with
    | some j => simp [hf]
    | none =>
      by_cases hn : i.originalName = name
      · simp [hf, List.find?, hn, ingStep, hn ▸ lookupAmount_dictAssign_self
          data i.originalName (i.amount * (k : ℚ))]
      · have hb : (i.originalName == name) = false := by
          simp [hn]
        simp [hf, List.find?, hb, ingStep,
          lookupAmount_dictAssign_ne data i.originalName name
            (i.amount * (k : ℚ)) (Ne.symm hn)]

theorem foldl_ingStep_of_disjoint (k : ℤ) (l : List Ingredient) :
    ∀ data : List (String × ℚ),
      (l.map (fun i => i.originalName)).Nodup →
      (∀ i ∈ l, i.originalName ∉ data.map Prod.fst) →
      List.foldl (ingStep k) data l =
        data ++ l.map (fun i => (i.originalName, i.amount * (k : ℚ))) := by
  induction l with
  | nil =>
    intro data _ _
    simp
  | cons i l ih =>
    intro data hnd hdisj
    rw [List.foldl_cons]
    have hmem : i.originalName ∉ data.map Prod.fst :=
      hdisj i (List.mem_cons_self i l)
    have hstep : ingStep k data i =
        data ++ [(i.originalName, i.amount * (k : ℚ))] := by
      simp [ingStep, dictAssign, hmem]
    rw [List.map_cons, List.nodup_cons] at hnd
    obtain ⟨hhead, htail⟩ := hnd
    have hdisj2 : ∀ j ∈ l, j.originalName ∉
        (data ++ [(i.originalName, i.amount * (k : ℚ))]).map Prod.fst := by
      intro j hj hmem'
      rw [List.map_append] at hmem'
      rcases List.mem_append.mp hmem' with h1 | h2
      · exact hdisj j (List.mem_cons_of_mem i hj) h1
      · have he : j.originalName = i.originalName := by simpa using h2
        exact hhead (he ▸ List.mem_map_of_mem (fun i => i.originalName) hj)
    rw [hstep, ih _ htail hdisj2]
    simp

/-- Recipe with two distinct ingredient names, used as a witness input. -/
def pantryRecipe : Recipe :=
  { usedIngredients := [{ originalName := "flour", amount := 1 }],
    missedIngredients := [{ originalName := "milk", amount := 1/2 }] }

/-- C7 (confirmed): for every recipe and scaling factor the names of the
rows returned by the aggregation are pairwise distinct, because the rows
are the entries of a dict keyed by name. -/
theorem aggregate_names_nodup (people_count : ℤ) (recipe : Recipe) :
    ((create_ingredients_df people_count recipe).map Prod.fst).Nodup :=
  nodup_keys_foldl_ingStep people_count
    (recipe.usedIngredients ++ recipe.missedIngredients) [] (by simp)

/-- C8 (confirmed): the aggregation processes `used ++ missing` in source
order and returns its rows in first-seen (insertion) order of the
ingredient names, with no sorting. -/
theorem aggregate_insertion_order (people_count : ℤ) (recipe : Recipe) :
    (create_ingredients_df people_count recipe).map Prod.fst =
      firstSeen ((recipe.usedIngredients ++ recipe.missedIngredients).map
        (fun i => i.originalName)) := by
  rw [create_ingredients_df, keys_foldl_ingStep]
  simp [firstSeen]

/-- C1 counterexample: on the spec's own scenario (used flour 1.0, missing
flour 0.5, scaling factor 2) the code yields a single row with amount
`0.5 * 2 = 1`, not the accumulated `(1.0 + 0.5) * 2 = 3`: the dict
assignment `data[name] = amount` overwrites, it does not add. -/
theorem aggregate_merge_sum_cex :
    create_ingredients_df 2 flourRecipe = [("flour", 1)] ∧
    ¬ lookupAmount (create_ingredients_df 2 flourRecipe) "flour" =
        some (((1 : ℚ) + 1/2) * 2) := by
  have h1 : create_ingredients_df 2 flourRecipe = [("flour", 1)] := by
    simp [create_ingredients_df, flourRecipe, ingStep, dictAssign]
  refine ⟨h1, ?_⟩
  rw [h1]
  simp only [lookupAmount, if_pos rfl]
  intro h
  have := Option.some.inj h
  norm_num at this

/-- C1 (corrected): when the same ingredient name occurs in several source
records of `used ++ missing`, the aggregation produces exactly one output
row for that name, but its scaled amount is the LAST such record's
`baseAmount * scalingFactor` (each dict assignment overwrites the previous
value), not the sum over all records with that name. -/
theorem aggregate_last_occurrence_wins (people_count : ℤ) (recipe : Recipe)
    (name : String) (_hk : 1 ≤ people_count)
    (hmem : name ∈ (recipe.usedIngredients ++ recipe.missedIngredients).map
      (fun i => i.originalName)) :
    ((create_ingredients_df people_count recipe).map Prod.fst).count name = 1 ∧
    lookupAmount (create_ingredients_df people_count recipe) name =
      ((recipe.usedIngredients ++ recipe.missedIngredients).reverse.find?
        (fun i => i.originalName == name)).map
          (fun i => i.amount * (people_count : ℚ)) := by
  constructor
  · have hnd := nodup_keys_foldl_ingStep people_count
      (recipe.usedIngredients ++ recipe.missedIngredients) [] (by simp)
    have hmem' : name ∈
        (create_ingredients_df people_count recipe).map Prod.fst := by
      rw [create_ingredients_df, keys_foldl_ingStep]
      have := (mem_firstSeenAux name
        ((recipe.usedIngredients ++ recipe.missedIngredients).map
          (fun i => i.originalName)) []).mpr ⟨hmem, by simp⟩
      simpa [firstSeenAux] using this
    exact List.count_eq_one_of_mem hnd hmem'
  · rw [create_ingredients_df, lookupAmount_foldl_ingStep]
    simp [lookupAmount]

/-- C1 witness: the amended statement applied to the flour scenario at
scaling factor 2; the surviving amount is the missing-list record's. -/
theorem aggregate_last_occurrence_wins_witness :
    (1 : ℤ) ≤ 2 ∧
    "flour" ∈ (flourRecipe.usedIngredients ++
      flourRecipe.missedIngredients).map (fun i => i.originalName) ∧
    (((create_ingredients_df 2 flourRecipe).map Prod.fst).count "flour" = 1 ∧
      lookupAmount (create_ingredients_df 2 flourRecipe) "flour" =
        ((flourRecipe.usedIngredients ++
          flourRecipe.missedIngredients).reverse.find?
            (fun i => i.originalName == "flour")).map
              (fun i => i.amount * (2 : ℚ))) :=
  ⟨by norm_num, by simp [flourRecipe],
    aggregate_last_occurrence_wins 2 flourRecipe "flour" (by norm_num)
      (by simp [flourRecipe])⟩

/-- C2 counterexample: on the flour scenario the output total is 1 while
`scalingFactor * (sum of base amounts)` is 3; aggregation does not
conserve the total quantity when a name repeats. -/
theorem aggregate_conservation_cex :
    ((create_ingredients_df 2 flourRecipe).map Prod.snd).sum = 1 ∧
    (2 : ℚ) * (((flourRecipe.usedIngredients ++
      flourRecipe.missedIngredients).map (fun i => i.amount)).sum) = 3 ∧
    (1 : ℚ) ≠ 3 := by
  refine ⟨?_, ?_, by norm_num⟩
  · have h1 : create_ingredients_df 2 flourRecipe = [("flour", 1)] := by
      simp [create_ingredients_df, flourRecipe, ingStep, dictAssign]
    rw [h1]
    simp
  · simp [flourRecipe]
    norm_num

/-- C2 (corrected): the total-quantity conservation law holds whenever the
ingredient names of `used ++ missing` are pairwise distinct (so no dict
assignment overwrites an earlier record); with a repeated name it fails,
as `aggregate_conservation_cex` shows. -/
theorem aggregate_conservation_of_nodup_names (people_count : ℤ)
    (recipe : Recipe) (_hk : 1 ≤ people_count)
    (hnd : ((recipe.usedIngredients ++ recipe.missedIngredients).map
      (fun i => i.originalName)).Nodup) :
    ((create_ingredients_df people_count recipe).map Prod.snd).sum =
      (people_count : ℚ) *
        (((recipe.usedIngredients ++ recipe.missedIngredients).map
          (fun i => i.amount)).sum) := by
  rw [create_ingredients_df,
    foldl_ingStep_of_disjoint people_count _ [] hnd (by simp)]
  rw [List.nil_append, List.map_map]
  have hc : (Prod.snd ∘ fun i : Ingredient =>
      (i.originalName, i.amount * (people_count : ℚ)))
      = fun i : Ingredient => i.amount * (people_count : ℚ) := rfl
  rw [hc, List.sum_map_mul_right, mul_comm]

/-- C2 witness: conservation at scaling factor 2 on a recipe whose two
records carry distinct names. -/
theorem aggregate_conservation_of_nodup_names_witness :
    (1 : ℤ) ≤ 2 ∧
    ((pantryRecipe.usedIngredients ++ pantryRecipe.missedIngredients).map
      (fun i => i.originalName)).Nodup ∧
    ((create_ingredients_df 2 pantryRecipe).map Prod.snd).sum =
      (2 : ℚ) * (((pantryRecipe.usedIngredients ++
        pantryRecipe.missedIngredients).map (fun i => i.amount)).sum) :=
  ⟨by norm_num, by simp [pantryRecipe],
    aggregate_conservation_of_nodup_names 2 pantryRecipe (by norm_num)
      (by simp [pantryRecipe])⟩

/-! ### Raw records: dict-access (`KeyError`) semantics for C5 -/

/-- An ingredient record as it arrives from the API, where either field may
be absent from the underlying JSON object. `none` means the key is absent,
so Python subscript access `ing['originalName']` / `ing['amount']` raises
`KeyError`. -/
structure RawIngredient where
  originalName : Option String
  amount : Option ℚ
deriving DecidableEq, Repr

/-- A recipe whose ingredient records may have absent fields. -/
structure RawRecipe where
  usedIngredients : List RawIngredient
  missedIngredients : List RawIngredient
deriving DecidableEq, Repr

/-- Loop body of `create_ingredients_df` on a raw record: both subscript
accesses must succeed (recipe.py lines 47-48), otherwise the whole call
raises (`none`). -/
def rawIngStep (people_count : ℤ) (data : List (String × ℚ))
    (ing : RawIngredient) : Option (List (String × ℚ)) := do
  let name ← ing.originalName
  let amount0 ← ing.amount
  pure (dictAssign data name (amount0 * (people_count : ℚ)))

/-- `create_ingredients_df` on raw records: `none` models the Python call
raising `KeyError` on the first record with an absent field. -/
def create_ingredients_df_raw (people_count : ℤ) (recipe : RawRecipe) :
    Option (List (String × ℚ)) :=
  List.foldlM (rawIngStep people_count) []
    (recipe.usedIngredients ++ recipe.missedIngredients)

/-- Raw recipe with one record whose `amount` key is absent. -/
def missingAmountRecipe : RawRecipe :=
  { usedIngredients := [{ originalName := some "flour", amount := none }],
    missedIngredients := [] }

theorem isSome_foldlM_rawIngStep (k : ℤ) (l : List RawIngredient) :
    ∀ data : List (String × ℚ),
      (List.foldlM (rawIngStep k) data l).isSome =
        l.all (fun i => i.originalName.isSome && i.amount.isSome) := by
  induction l with
  | nil =>
    intro data
    rfl
  | cons i l ih =>
    intro data
    cases hn : i.originalName with
    | none => simp [List.foldlM_cons, rawIngStep, hn]
    | some name =>
      cases ha : i.amount with
      | none => simp [List.foldlM_cons, rawIngStep, hn, ha]
      | some a => simp [List.foldlM_cons, rawIngStep, hn, ha, ih]

/-- C5 counterexample: a record whose `amount` key is absent makes the
aggregation raise `KeyError` (modelled as `none`); the amount is not
coerced to `0`, which would have produced the row `("flour", 0)`. -/
theorem aggregate_malformed_cex :
    create_ingredients_df_raw 1 missingAmountRecipe = none ∧
    create_ingredients_df_raw 1 missingAmountRecipe ≠ some [("flour", 0)] := by
  constructor
  · rfl
  · intro h
    exact Option.noConfusion (h.symm.trans rfl)

/-- C5 (corrected): the aggregation succeeds exactly when every record of
`used ++ missing` carries both an `originalName` and an `amount` key; a
record with an absent key makes the whole call raise `KeyError` instead of
being coerced to a default. A present but empty name string is aggregated
under the key `""`. -/
theorem aggregate_raw_field_requirements :
    (∀ (people_count : ℤ) (recipe : RawRecipe),
      (create_ingredients_df_raw people_count recipe).isSome =
        (recipe.usedIngredients ++ recipe.missedIngredients).all
          (fun i => i.originalName.isSome && i.amount.isSome)) ∧
    (∀ a : ℚ, create_ingredients_df_raw 1
      { usedIngredients := [{ originalName := some "", amount := some a }],
        missedIngredients := [] } = some [("", a)]) := by
  constructor
  · intro people_count recipe
    exact isSome_foldlM_rawIngStep people_count _ []
  · intro a
    simp [create_ingredients_df_raw, rawIngStep, dictAssign]

/-! ### Amount formatting (recipe.py lines 38-41) -/

/-- Round a rational to the nearest integer, ties to even: the rounding
mode of Python's built-in `round`. -/
def roundHalfEven (q : ℚ) : ℤ :=
  if q - ⌊q⌋ < 1/2 then ⌊q⌋
  else if 1/2 < q - ⌊q⌋ then ⌊q⌋ + 1
  else if ⌊q⌋ % 2 = 0 then ⌊q⌋ else ⌊q⌋ + 1

/-- Python `round(amount, 2)`: round to two decimal places. -/
def pyRound2 (q : ℚ) : ℚ :=
  (roundHalfEven (q * 100) : ℚ) / 100

/-- Python `str(amount)` for a non-integral float holding at most two
decimal places: sign, integer part, a decimal point, then one digit when
the hundredths digit is zero (no trailing zero) else two digits (with a
leading zero for hundredths below 10). -/
def pyStrFrac2 (q : ℚ) : String :=
  (if q < 0 then "-" else "") ++
    toString (q.num.natAbs * 100 / q.den / 100) ++ "." ++
    (if q.num.natAbs * 100 / q.den % 100 % 10 = 0 then
      toString (q.num.natAbs * 100 / q.den % 100 / 10)
    else if q.num.natAbs * 100 / q.den % 100 < 10 then
      "0" ++ toString (q.num.natAbs * 100 / q.den % 100)
    else toString (q.num.natAbs * 100 / q.den % 100))

/-- `format_amount` (recipe.py lines 38-41): `amount = round(amount, 2)`,
then `str(int(amount))` when `amount.is_integer()` (denominator 1) else
`str(amount)`. -/
def format_amount (q : ℚ) : String :=
  if (pyRound2 q).den = 1 then toString (pyRound2 q).num
  else pyStrFrac2 (pyRound2 q)

theorem roundHalfEven_intCast (n : ℤ) : roundHalfEven (n : ℚ) = n := by
  unfold roundHalfEven
  rw [Int.floor_intCast, sub_self]
  norm_num

theorem pyRound2_idem (q : ℚ) : pyRound2 (pyRound2 q) = pyRound2 q := by
  unfold pyRound2
  rw [div_mul_cancel₀ _ (by norm_num : (100 : ℚ) ≠ 0), roundHalfEven_intCast]

/-- C6 (confirmed): `format_amount` first rounds to two decimal places and
only then tests integrality; a rounded-integral value is rendered as a bare
integer and a rounded-fractional value with its natural non-padded decimal
representation. In particular `format_amount 2 = "2"`,
`format_amount 2.5 = "2.5"` and `format_amount 2.0049 = "2"`. -/
theorem format_amount_rounds_then_formats :
    (∀ q : ℚ, format_amount q =
      if (pyRound2 q).den = 1 then toString (pyRound2 q).num
      else pyStrFrac2 (pyRound2 q)) ∧
    (∀ q : ℚ, format_amount q = format_amount (pyRound2 q)) ∧
    format_amount 2 = "2" ∧
    format_amount (5/2) = "2.5" ∧
    format_amount (20049/10000) = "2" := by
  have h2 : pyRound2 2 = 2 := by
    unfold pyRound2
    have h : (2 : ℚ) * 100 = ((200 : ℤ) : ℚ) := by norm_num
    rw [h, roundHalfEven_intCast]
    norm_num
  refine ⟨fun q => rfl, ?_, ?_, ?_, ?_⟩
  · intro q
    rw [format_amount, format_amount, pyRound2_idem]
  · rw [format_amount, h2]
    rw [if_pos (by norm_num)]
    norm_num
    rfl
  · have h : pyRound2 (5/2) = 5/2 := by
      unfold pyRound2
      have h : (5/2 : ℚ) * 100 = ((250 : ℤ) : ℚ) := by norm_num
      rw [h, roundHalfEven_intCast]
      norm_num
    rw [format_amount, h]
    have hd : (5/2 : ℚ).den = 2 := by norm_num
    have hn : (5/2 : ℚ).num = 5 := by norm_num
    rw [if_neg (by rw [hd]; norm_num)]
    rw [pyStrFrac2, hd, hn]
    norm_num
    rfl
  · have h : pyRound2 (20049/10000) = 2 := by
      unfold pyRound2 roundHalfEven
      have hf : ⌊(20049/10000 : ℚ) * 100⌋ = 200 := by norm_num
      rw [hf, if_pos (by norm_num)]
      norm_num
    rw [format_amount, h]
    rw [if_pos (by norm_num)]
    norm_num
    rfl

/-! ### Chart plotting (recipe.py lines 115-123) -/

/-- `plot_chart` (recipe.py lines 115-123): the data series handed to the
chart backend. A bar chart renders the whole DataFrame with `Ingredient`
as index; a pie chart renders the whole `Amount` column labelled by the
whole `Ingredient` column. `some rows` is the series rendered; `none`
means neither branch matches and nothing is drawn. No sorting, no
truncation and no synthetic row of any kind occurs. -/
def plot_chart (df : List (String × ℚ)) (chart_type : String) :
    Option (List (String × ℚ)) :=
  if chart_type = "Bar Chart" then some df
  else if chart_type = "Pie Chart" then some df
  else none

/-- The spec's seven-ingredient folding scenario: amounts 10,9,8,7,6,5,4. -/
def sevenRowDf : List (String × ℚ) :=
  [("a", 10), ("b", 9), ("c", 8), ("d", 7), ("e", 6), ("f", 5), ("g", 4)]

/-- C3 counterexample: on seven rows the chart receives all seven rows, not
five, and no row named `"Other"` appears — the code contains no folding
step at all. -/
theorem plot_chart_no_folding_cex :
    (plot_chart sevenRowDf "Pie Chart").map List.length = some 7 ∧
    (7 : ℕ) ≠ 5 ∧
    (plot_chart sevenRowDf "Pie Chart").map (fun rows => rows.map Prod.fst) =
      some ["a", "b", "c", "d", "e", "f", "g"] := by
  refine ⟨rfl, by norm_num, rfl⟩

/-- C3 (corrected): `plot_chart` hands every aggregated row to the chart
unchanged for both chart types, so the chart series always has exactly
`count(rows)` rows; no top-4 selection and no `"Other"` bucket exists in
the code. -/
theorem plot_chart_passes_rows_through (df : List (String × ℚ)) :
    plot_chart df "Bar Chart" = some df ∧
    plot_chart df "Pie Chart" = some df :=
  ⟨rfl, rfl⟩

/-- C4 (confirmed): whatever series the chart view renders has the same
`scaledAmount` total as the aggregated rows it was given — trivially so,
because `plot_chart` passes the rows through without folding. -/
theorem plot_chart_conserves_sum (df : List (String × ℚ))
    (chart_type : String) (rows : List (String × ℚ))
    (h : plot_chart df chart_type = some rows) :
    (rows.map Prod.snd).sum = (df.map Prod.snd).sum := by
  unfold plot_chart at h
  split at h
  · obtain rfl := Option.some.inj h
    rfl
  · split at h
    · obtain rfl := Option.some.inj h
      rfl
    · exact Option.noConfusion h

/-- C4 witness: sum conservation on the seven-row pie chart. -/
theorem plot_chart_conserves_sum_witness :
    plot_chart sevenRowDf "Pie Chart" = some sevenRowDf ∧
    (sevenRowDf.map Prod.snd).sum = (sevenRowDf.map Prod.snd).sum :=
  ⟨rfl, plot_chart_conserves_sum sevenRowDf "Pie Chart" sevenRowDf rfl⟩

/-! ### Query building in `get_recipes` (recipe.py lines 15-20)

Strings are modelled as lists of characters here, because the claim is
about character-level editing. -/

/-- Python `str.split(',')`. -/
def splitComma : List Char → List (List Char)
  | [] => [[]]
  | c :: cs =>
    match splitComma cs with
    | [] => [[]]
    | p :: ps => if c = ',' then [] :: p :: ps else (c :: p) :: ps

/-- Python `','.join(...)` with separator `",+"`. -/
def joinPlus : List (List Char) → List Char
  | [] => []
  | [p] => p
  | p :: q :: ps => p ++ ',' :: '+' :: joinPlus (q :: ps)

/-- The `ingredients_param` built by `get_recipes` (recipe.py lines 17-18):
`ingredients.replace(' ', '').split(',')` joined with `",+"`. Removing
every space is modelled by `List.filter`. -/
def ingredients_param (ingredients : List Char) : List Char :=
  joinPlus (splitComma (ingredients.filter (fun c => c != ' ')))

theorem splitComma_ne_nil (l : List Char) : splitComma l ≠ [] := by
  cases l with
  | nil => simp [splitComma]
  | cons c cs =>
    cases h : splitComma cs with
    | nil => simp [splitComma, h]
    | cons p ps =>
      by_cases hc : c = ','
      · simp [splitComma, h, hc]
      · simp [splitComma, h, hc]

theorem mem_of_mem_splitComma (l : List Char) :
    ∀ p ∈ splitComma l, ∀ c ∈ p, c ∈ l := by
  induction l with
  | nil =>
    intro p hp c hc
    rw [splitComma] at hp
    simp at hp
    subst hp
    simp at hc
  | cons d cs ih =>
    intro p hp c hc
    cases hr : splitComma cs with
    | nil => exact absurd hr (splitComma_ne_nil cs)
    | cons q qs =>
      rw [splitComma, hr] at hp
      dsimp only at hp
      by_cases hd : d = ','
      · rw [if_pos hd] at hp
        rcases List.mem_cons.mp hp with e | hp'
        · subst e
          simp at hc
        · exact List.mem_cons_of_mem d (ih p (hr ▸ hp') c hc)
      · rw [if_neg hd] at hp
        rcases List.mem_cons.mp hp with e | hp'
        · subst e
          rcases List.mem_cons.mp hc with e' | hc'
          · exact e' ▸ List.mem_cons_self d cs
          · exact List.mem_cons_of_mem d
              (ih q (hr ▸ List.mem_cons_self q qs) c hc')
        · exact List.mem_cons_of_mem d
            (ih p (hr ▸ List.mem_cons_of_mem q hp') c hc)

theorem mem_joinPlus (c : Char) :
    ∀ L : List (List Char), c ∈ joinPlus L →
      c = ',' ∨ c = '+' ∨ ∃ p ∈ L, c ∈ p := by
  intro L
  induction L with
  | nil =>
    intro h
    simp [joinPlus] at h
  | cons p L ih =>
    cases L with
    | nil =>
      intro h
      rw [joinPlus] at h
      exact Or.inr (Or.inr ⟨p, List.mem_cons_self p [], h⟩)
    | cons q ps =>
      intro h
      rw [joinPlus] at h
      rcases List.mem_append.mp h with h1 | h2
      · exact Or.inr (Or.inr ⟨p, List.mem_cons_self p (q :: ps), h1⟩)
      · rcases List.mem_cons.mp h2 with e | h3
        · exact Or.inl e
        · rcases List.mem_cons.mp h3 with e | h4
          · exact Or.inr (Or.inl e)
          · rcases ih h4 with e | e | ⟨r, hr, hcr⟩
            · exact Or.inl e
            · exact Or.inr (Or.inl e)
            · exact Or.inr (Or.inr ⟨r, List.mem_cons_of_mem p hr, hcr⟩)

/-- C9 (confirmed): `get_recipes` builds the query's ingredients parameter
by deleting every space character (also inside multi-word names), then
splitting on commas and joining the pieces with `",+"`; consequently no
space character survives into the parameter. -/
theorem get_recipes_query_building :
    (∀ s : List Char, ingredients_param s =
      joinPlus (splitComma (s.filter (fun c => c != ' ')))) ∧
    (∀ s : List Char, ' ' ∉ ingredients_param s) ∧
    ingredients_param ("olive oil, tomato".toList) =
      ("oliveoil,+tomato".toList) ∧
    ingredients_param ("flour, eggs, milk".toList) =
      ("flour,+eggs,+milk".toList) := by
  refine ⟨fun s => rfl, ?_, rfl, rfl⟩
  intro s hmem
  rcases mem_joinPlus ' ' _ hmem with e | e | ⟨p, hp, hcp⟩
  · exact absurd e (by decide)
  · exact absurd e (by decide)
  · have hsf : ' ' ∈ s.filter (fun c => c != ' ') :=
      mem_of_mem_splitComma _ p hp ' ' hcp
    have := List.of_mem_filter hsf
    simp at this

/-! ### HTTP status handling (recipe.py lines 21-26 and 32-36) -/

/-- The two fields of a `requests` response that the code reads: the `ok`
flag and the parsed JSON body. -/
structure HttpResponse (α : Type) where
  ok : Bool
  json : α

/-- Response handling of `get_recipes` (recipe.py lines 21-26): return the
parsed body when `response.ok`, else show an error box and return `[]`.
The function is total: no exception escapes. -/
def get_recipes (α : Type) (response : HttpResponse (List α)) : List α :=
  if response.ok then response.json else []

/-- Response handling of `get_recipe_information` (recipe.py lines 32-36):
return the parsed body when `response.ok`, else the empty dict (modelled as
an empty association list). The function is total: no exception escapes. -/
def get_recipe_information (α : Type)
    (response : HttpResponse (List (String × α))) : List (String × α) :=
  if response.ok then response.json else []

/-- C10 (confirmed): on a response that is not ok, `get_recipes` returns
the empty list and `get_recipe_information` the empty dict; being total
functions of the response value, neither raises. -/
theorem failed_response_yields_empty (α : Type)
    (r : HttpResponse (List α)) (r' : HttpResponse (List (String × α)))
    (h : r.ok = false) (h' : r'.ok = false) :
    get_recipes α r = [] ∧ get_recipe_information α r' = [] := by
  constructor
  · simp [get_recipes, h]
  · simp [get_recipe_information, h']

/-- C10 witness: concrete failed responses with non-empty bodies. -/
theorem failed_response_yields_empty_witness :
    get_recipes ℕ ⟨false, [3]⟩ = [] ∧
    get_recipe_information ℕ ⟨false, [("title", 3)]⟩ = [] :=
  failed_response_yields_empty ℕ ⟨false, [3]⟩ ⟨false, [("title", 3)]⟩ rfl rfl

end RecipeFinder
